import Mathlib

/-!
Verification of the pansat core data model against its specification.

The repository snapshot contains only documentation, product schema files and
CI scripts; the Python modules implementing the core (`pansat/time.py`,
`pansat/file_record.py`, `pansat/granule.py`, `pansat/catalog/index.py`,
`pansat/download/providers/data_provider.py`, `pansat/download/accounts.py`)
are absent.  Every definition below is therefore modelled from the
specification's words and the repository documentation, and the claims are
settled against these models.
-/

namespace Pansat

/-- Modelled from the spec: `pansat.time.TimeRange` (module `pansat/time.py`
is missing from the snapshot).  An immutable half-open interval
`[start, stop)` of instants; instants are modelled as integers (for example
minutes since an epoch).  The spec calls the second field `end`, which is a
reserved word in Lean. -/
structure TimeRange where
  start : Int
  stop : Int
deriving DecidableEq, Repr

/-- Spec invariant on a time range: `start <= end`. -/
def TimeRange.wf (r : TimeRange) : Prop := r.start ≤ r.stop

instance (r : TimeRange) : Decidable r.wf :=
  inferInstanceAs (Decidable (r.start ≤ r.stop))

/-- An instant lies inside a half-open range `[start, stop)`. -/
def TimeRange.containsInstant (r : TimeRange) (t : Int) : Prop :=
  r.start ≤ t ∧ t < r.stop

instance (r : TimeRange) (t : Int) : Decidable (r.containsInstant t) :=
  inferInstanceAs (Decidable (r.start ≤ t ∧ t < r.stop))

/-- Modelled from the spec: `TimeRange.overlaps`.  Two ranges overlap when
they share interior instants; ranges touching at a single instant, or
zero-length ranges, overlap only if both are zero-length and equal. -/
def TimeRange.overlaps (a b : TimeRange) : Prop :=
  (a.start < b.stop ∧ b.start < a.stop) ∨
  (a.start = a.stop ∧ b.start = b.stop ∧ a.start = b.start)

instance (a b : TimeRange) : Decidable (a.overlaps b) :=
  inferInstanceAs
    (Decidable ((a.start < b.stop ∧ b.start < a.stop) ∨
      (a.start = a.stop ∧ b.start = b.stop ∧ a.start = b.start)))

/-- Two ranges are adjacent when one ends exactly where the other starts. -/
def TimeRange.adjacent (a b : TimeRange) : Prop :=
  a.stop = b.start ∨ b.stop = a.start

instance (a b : TimeRange) : Decidable (a.adjacent b) :=
  inferInstanceAs (Decidable (a.stop = b.start ∨ b.stop = a.start))

/-- Modelled from the spec: `TimeRange.intersect` returns the common
sub-range when the ranges overlap and none otherwise. -/
def TimeRange.intersect (a b : TimeRange) : Option TimeRange :=
  if (a.start < b.stop ∧ b.start < a.stop) ∨
     (a.start = a.stop ∧ b.start = b.stop ∧ a.start = b.start)
  then some ⟨max a.start b.start, min a.stop b.stop⟩
  else none

/-- The error raised by `TimeRange.merge` on disjoint ranges. -/
inductive RangeError where
  | incompatibleRange
deriving DecidableEq, Repr

/-- Modelled from the spec: `TimeRange.merge` combines two overlapping or
adjacent ranges into their hull and fails with `IncompatibleRangeError`
when the ranges are disjoint.  The implementation-style test
`a.start <= b.stop && b.start <= a.stop` accepts exactly the
overlapping-or-adjacent pairs (proved below). -/
def TimeRange.merge (a b : TimeRange) : Except RangeError TimeRange :=
  if a.start ≤ b.stop ∧ b.start ≤ a.stop
  then .ok ⟨min a.start b.start, max a.stop b.stop⟩
  else .error .incompatibleRange

/-- The test used by `merge` accepts exactly overlapping-or-adjacent pairs
of well-formed ranges. -/
theorem mergeable_iff (a b : TimeRange) (ha : a.wf) (hb : b.wf) :
    (a.start ≤ b.stop ∧ b.start ≤ a.stop) ↔ (a.overlaps b ∨ a.adjacent b) := by
  unfold TimeRange.wf at ha hb
  unfold TimeRange.overlaps TimeRange.adjacent
  omega

end Pansat

namespace Pansat

/-- Modelled from the spec: `pansat.file_record.FileRecord` (module
`pansat/file_record.py` is missing from the snapshot).  Identifies one data
file: product, optional remote locator, optional local path, optional
content hash, and nominal time coverage. -/
structure FileRecord where
  product : String
  remote : Option String
  localPath : Option String
  hash : Option String
  range : TimeRange
deriving DecidableEq, Repr

/-- Modelled from the spec: `pansat.granule.Granule` (module
`pansat/granule.py` is missing from the snapshot).  The finest unit of
indexed coverage: an owning file record plus a precise coverage range. -/
structure Granule where
  record : FileRecord
  range : TimeRange
deriving DecidableEq, Repr

/-- The (product, local path) identity of a granule's file, used by the
index's upsert rule. -/
def Granule.fileKey (g : Granule) : String × Option String :=
  (g.record.product, g.record.localPath)

/-- Order of time ranges by start instant, used to keep indices sorted. -/
def rangeLE (a b : TimeRange) : Prop := a.start ≤ b.start

instance : DecidableRel rangeLE :=
  fun a b => inferInstanceAs (Decidable (a.start ≤ b.start))

instance : IsTotal TimeRange rangeLE :=
  ⟨fun a b => Int.le_total a.start b.start⟩

instance : IsTrans TimeRange rangeLE :=
  ⟨fun _ _ _ hab hbc => le_trans hab hbc⟩

/-- Order of granules by start instant of their coverage. -/
def granuleLE (a b : Granule) : Prop := a.range.start ≤ b.range.start

instance : DecidableRel granuleLE :=
  fun a b => inferInstanceAs (Decidable (a.range.start ≤ b.range.start))

/-- Modelled from the spec: `pansat.catalog.index.Index` (module
`pansat/catalog/index.py` is missing from the snapshot).  Per-product
collection of granules kept sorted by start time. -/
structure Index where
  product : String
  granules : List Granule
deriving DecidableEq, Repr

/-- An empty index for a product. -/
def Index.empty (product : String) : Index := ⟨product, []⟩

/-- Modelled from the spec: `Index.insert` keeps the granules sorted by
start time and upserts: a previously indexed granule with the identical
(product, local path) pair is replaced rather than duplicated. -/
def Index.insert (idx : Index) (g : Granule) : Index :=
  { idx with granules :=
      (idx.granules.filter
        (fun h => ! (decide (h.fileKey = g.fileKey)))).orderedInsert granuleLE g }

/-- Modelled from the spec: `Index.find_overlapping` returns the granules
whose coverage overlaps the query range. -/
def Index.find_overlapping (idx : Index) (query : TimeRange) : List Granule :=
  idx.granules.filter (fun g => decide (g.range.overlaps query))

/-- The sweep phase of the classic interval merge: ranges arrive sorted by
start; the next range is merged into the current one when
`next.start <= current.end`. -/
def sweep (cur : TimeRange) : List TimeRange → List TimeRange
  | [] => [cur]
  | r :: rest =>
    if r.start ≤ cur.stop then sweep ⟨cur.start, max cur.stop r.stop⟩ rest
    else cur :: sweep r rest

/-- The classic interval merge: sort by start, then sweep. -/
def mergeRanges (l : List TimeRange) : List TimeRange :=
  match List.insertionSort rangeLE l with
  | [] => []
  | r :: rest => sweep r rest

/-- Modelled from the spec: `Index.covered_ranges` returns the coalesced
coverage of the indexed granules. -/
def Index.covered_ranges (idx : Index) : List TimeRange :=
  mergeRanges (idx.granules.map Granule.range)

/-- An index built by a sequence of insert operations starting from the
empty index. -/
def buildIndex (product : String) (gs : List Granule) : Index :=
  gs.foldl Index.insert (Index.empty product)

/-- Core invariant of the sweep: on start-sorted well-formed input it
produces well-formed, strictly separated ranges covering exactly the same
instants. -/
theorem sweep_spec (l : List TimeRange) :
    ∀ cur : TimeRange, cur.wf → (∀ r ∈ l, r.wf) →
    (∀ r ∈ l, cur.start ≤ r.start) → List.Sorted rangeLE l →
    (∀ r ∈ sweep cur l, r.wf) ∧
    (∀ r ∈ sweep cur l, cur.start ≤ r.start) ∧
    List.Pairwise (fun a b => a.stop < b.start) (sweep cur l) ∧
    (∀ t, (∃ r ∈ sweep cur l, r.containsInstant t) ↔
      (cur.containsInstant t ∨ ∃ r ∈ l, r.containsInstant t)) := by
  induction l with
  | nil =>
    intro cur hcur _ _ _
    refine ⟨?_, ?_, ?_, ?_⟩ <;> simp [sweep, hcur]
  | cons r rest ih =>
    intro cur hcur hwf hub hsorted
    by_cases hm : r.start ≤ cur.stop
    · have hcur' : (⟨cur.start, max cur.stop r.stop⟩ : TimeRange).wf := by
        unfold TimeRange.wf at hcur ⊢
        simp only [le_max_iff]
        omega
      have hwf' : ∀ x ∈ rest, x.wf := fun x hx => hwf x (List.mem_cons_of_mem _ hx)
      have hub' : ∀ x ∈ rest, (⟨cur.start, max cur.stop r.stop⟩ : TimeRange).start ≤ x.start :=
        fun x hx => hub x (List.mem_cons_of_mem _ hx)
      have ihm := ih ⟨cur.start, max cur.stop r.stop⟩ hcur' hwf' hub' hsorted.of_cons
      have hstep : sweep cur (r :: rest) = sweep ⟨cur.start, max cur.stop r.stop⟩ rest := by
        simp [sweep, hm]
      have hmerge : ∀ t, (⟨cur.start, max cur.stop r.stop⟩ : TimeRange).containsInstant t ↔
          (cur.containsInstant t ∨ r.containsInstant t) := by
        intro t
        have h1 := hub r (List.mem_cons_self r rest)
        have h2 := hwf r (List.mem_cons_self r rest)
        unfold TimeRange.wf at h2
        unfold TimeRange.containsInstant
        simp only [lt_max_iff]
        omega
      refine ⟨?_, ?_, ?_, ?_⟩
      · rw [hstep]; exact ihm.1
      · rw [hstep]; exact ihm.2.1
      · rw [hstep]; exact ihm.2.2.1
      · intro t
        rw [hstep, ihm.2.2.2 t, hmerge t, List.exists_mem_cons_iff]
        tauto
    · have hrwf : r.wf := hwf r (List.mem_cons_self r rest)
      have hwf' : ∀ x ∈ rest, x.wf := fun x hx => hwf x (List.mem_cons_of_mem _ hx)
      have hub' : ∀ x ∈ rest, r.start ≤ x.start :=
        fun x hx => List.rel_of_sorted_cons hsorted x hx
      have ihr := ih r hrwf hwf' hub' hsorted.of_cons
      have hstep : sweep cur (r :: rest) = cur :: sweep r rest := by
        simp [sweep, hm]
      refine ⟨?_, ?_, ?_, ?_⟩
      · rw [hstep]
        intro x hx
        rcases List.mem_cons.mp hx with h | h
        · exact h ▸ hcur
        · exact ihr.1 x h
      · rw [hstep]
        intro x hx
        rcases List.mem_cons.mp hx with h | h
        · exact h ▸ le_refl _
        · exact le_trans (hub r (List.mem_cons_self r rest)) (ihr.2.1 x h)
      · rw [hstep]
        refine List.Pairwise.cons ?_ ihr.2.2.1
        intro x hx
        have := ihr.2.1 x hx
        omega
      · intro t
        rw [hstep, List.exists_mem_cons_iff, ihr.2.2.2 t, List.exists_mem_cons_iff]

/-- Interval merge over any well-formed range list: well-formed, strictly
separated output covering the same instants. -/
theorem mergeRanges_spec (l : List TimeRange) (hwf : ∀ r ∈ l, r.wf) :
    (∀ r ∈ mergeRanges l, r.wf) ∧
    List.Pairwise (fun a b => a.stop < b.start) (mergeRanges l) ∧
    (∀ t, (∃ r ∈ mergeRanges l, r.containsInstant t) ↔
      ∃ r ∈ l, r.containsInstant t) := by
  unfold mergeRanges
  have hperm := List.perm_insertionSort rangeLE l
  have hsorted := List.sorted_insertionSort rangeLE l
  cases hs : List.insertionSort rangeLE l with
  | nil =>
    rw [hs] at hperm
    have hl : l = [] := hperm.symm.eq_nil
    subst hl
    simp
  | cons r rest =>
    rw [hs] at hperm hsorted
    have hwfs : ∀ x ∈ r :: rest, x.wf := fun x hx => hwf x (hperm.subset hx)
    have hub : ∀ x ∈ rest, r.start ≤ x.start :=
      fun x hx => List.rel_of_sorted_cons hsorted x hx
    have hsp := sweep_spec rest r (hwfs r (List.mem_cons_self r rest))
      (fun x hx => hwfs x (List.mem_cons_of_mem _ hx)) hub hsorted.of_cons
    refine ⟨hsp.1, hsp.2.2.1, ?_⟩
    intro t
    rw [hsp.2.2.2 t]
    constructor
    · rintro (hp | ⟨x, hx, hp⟩)
      · exact ⟨r, hperm.subset (List.mem_cons_self r rest), hp⟩
      · exact ⟨x, hperm.subset (List.mem_cons_of_mem _ hx), hp⟩
    · rintro ⟨x, hx, hp⟩
      rcases List.mem_cons.mp (hperm.symm.subset hx) with h | h
      · exact Or.inl (h ▸ hp)
      · exact Or.inr ⟨x, h, hp⟩

/-- Inserting a granule whose file key is fresh reduces to a plain ordered
insertion. -/
theorem insert_granules_of_fresh (idx : Index) (g : Granule)
    (h : ∀ x ∈ idx.granules, x.fileKey ≠ g.fileKey) :
    (idx.insert g).granules = idx.granules.orderedInsert granuleLE g := by
  unfold Index.insert
  have hf : idx.granules.filter (fun x => ! (decide (x.fileKey = g.fileKey)))
      = idx.granules :=
    List.filter_eq_self.mpr (fun x hx => by simp [h x hx])
  rw [hf]

/-- Folding insert operations over granules with pairwise distinct file
keys yields a permutation of the accumulated granules. -/
theorem foldl_insert_perm (gs : List Granule) :
    ∀ idx : Index,
    (idx.granules ++ gs).Pairwise (fun a b => a.fileKey ≠ b.fileKey) →
    (gs.foldl Index.insert idx).granules.Perm (idx.granules ++ gs) := by
  induction gs with
  | nil => intro idx _; simp
  | cons g rest ih =>
    intro idx hp
    have hfresh : ∀ x ∈ idx.granules, x.fileKey ≠ g.fileKey := by
      intro x hx
      exact (List.pairwise_append.mp hp).2.2 x hx g (List.mem_cons_self g rest)
    have h1 : (idx.insert g).granules.Perm (g :: idx.granules) := by
      rw [insert_granules_of_fresh idx g hfresh]
      exact List.perm_orderedInsert _ g _
    have hp' : ((idx.insert g).granules ++ rest).Pairwise
        (fun a b => a.fileKey ≠ b.fileKey) := by
      have hpm : (idx.granules ++ g :: rest).Perm
          ((idx.insert g).granules ++ rest) :=
        List.perm_middle.trans (h1.symm.append_right rest)
      exact ((hpm.pairwise_iff (fun h => h ∘ Eq.symm)).mp hp)
    have hrest := ih (idx.insert g) hp'
    have hfold : ((g :: rest).foldl Index.insert idx) =
        rest.foldl Index.insert (idx.insert g) := rfl
    rw [hfold]
    exact hrest.trans ((h1.append_right rest).trans List.perm_middle.symm)

end Pansat

/-- C1: for every Index built by a sequence of insert operations on
well-formed granules of pairwise distinct files, `covered_ranges()` is a
sorted sequence of pairwise non-overlapping, non-adjacent TimeRanges whose
union equals the union of all inserted granules' TimeRanges; in particular,
granules at `[Jan1,Jan2)`, `[Jan2,Jan3)`, `[Jan5,Jan6)` (encoded as days
1, 2, 3, 5, 6) yield exactly `[Jan1,Jan3)` and `[Jan5,Jan6)`. -/
theorem index_covered_ranges_coverage_law :
    (∀ (product : String) (gs : List Pansat.Granule),
      (∀ g ∈ gs, g.range.wf) →
      gs.Pairwise (fun a b => a.fileKey ≠ b.fileKey) →
      List.Sorted Pansat.rangeLE (Pansat.buildIndex product gs).covered_ranges ∧
      ((Pansat.buildIndex product gs).covered_ranges).Pairwise
        (fun a b => ¬ a.overlaps b ∧ ¬ a.adjacent b) ∧
      (∀ t, (∃ r ∈ (Pansat.buildIndex product gs).covered_ranges,
          r.containsInstant t) ↔
        (∃ g ∈ gs, g.range.containsInstant t))) ∧
    (Pansat.buildIndex "X"
      [⟨⟨"X", none, some "f1", none, ⟨1, 2⟩⟩, ⟨1, 2⟩⟩,
       ⟨⟨"X", none, some "f2", none, ⟨2, 3⟩⟩, ⟨2, 3⟩⟩,
       ⟨⟨"X", none, some "f3", none, ⟨5, 6⟩⟩, ⟨5, 6⟩⟩]).covered_ranges =
      [⟨1, 3⟩, ⟨5, 6⟩] := by
  constructor
  · intro product gs hwf hkeys
    have hperm : (Pansat.buildIndex product gs).granules.Perm gs := by
      have := Pansat.foldl_insert_perm gs (Pansat.Index.empty product)
        (by simpa [Pansat.Index.empty] using hkeys)
      simpa [Pansat.buildIndex, Pansat.Index.empty] using this
    have hwfm : ∀ r ∈ (Pansat.buildIndex product gs).granules.map
        Pansat.Granule.range, r.wf := by
      intro r hr
      obtain ⟨g, hg, rfl⟩ := List.mem_map.mp hr
      exact hwf g (hperm.subset hg)
    have hm := Pansat.mergeRanges_spec _ hwfm
    refine ⟨?_, ?_, ?_⟩
    · exact List.Pairwise.imp_of_mem
        (fun ha _ hsep => by
          have := hm.1 _ ha
          unfold Pansat.TimeRange.wf at this
          unfold Pansat.rangeLE
          omega)
        hm.2.1
    · exact List.Pairwise.imp_of_mem
        (fun ha hb hsep => by
          have h1 := hm.1 _ ha
          have h2 := hm.1 _ hb
          unfold Pansat.TimeRange.wf at h1 h2
          unfold Pansat.TimeRange.overlaps Pansat.TimeRange.adjacent
          omega)
        hm.2.1
    · intro t
      rw [show (Pansat.buildIndex product gs).covered_ranges =
          Pansat.mergeRanges ((Pansat.buildIndex product gs).granules.map
            Pansat.Granule.range) from rfl,
        hm.2.2 t]
      constructor
      · rintro ⟨r, hr, hp⟩
        obtain ⟨g, hg, rfl⟩ := List.mem_map.mp hr
        exact ⟨g, hperm.subset hg, hp⟩
      · rintro ⟨g, hg, hp⟩
        exact ⟨g.range, List.mem_map.mpr ⟨g, hperm.symm.subset hg, rfl⟩, hp⟩
  · decide

/-- Witness for C1: the coverage law applied to the three scenario
granules. -/
theorem index_covered_ranges_coverage_law_witness :
    List.Sorted Pansat.rangeLE (Pansat.buildIndex "X"
      [⟨⟨"X", none, some "f1", none, ⟨1, 2⟩⟩, ⟨1, 2⟩⟩,
       ⟨⟨"X", none, some "f2", none, ⟨2, 3⟩⟩, ⟨2, 3⟩⟩,
       ⟨⟨"X", none, some "f3", none, ⟨5, 6⟩⟩, ⟨5, 6⟩⟩]).covered_ranges ∧
    ((Pansat.buildIndex "X"
      [⟨⟨"X", none, some "f1", none, ⟨1, 2⟩⟩, ⟨1, 2⟩⟩,
       ⟨⟨"X", none, some "f2", none, ⟨2, 3⟩⟩, ⟨2, 3⟩⟩,
       ⟨⟨"X", none, some "f3", none, ⟨5, 6⟩⟩, ⟨5, 6⟩⟩]).covered_ranges).Pairwise
        (fun a b => ¬ a.overlaps b ∧ ¬ a.adjacent b) ∧
    (∀ t, (∃ r ∈ (Pansat.buildIndex "X"
      [⟨⟨"X", none, some "f1", none, ⟨1, 2⟩⟩, ⟨1, 2⟩⟩,
       ⟨⟨"X", none, some "f2", none, ⟨2, 3⟩⟩, ⟨2, 3⟩⟩,
       ⟨⟨"X", none, some "f3", none, ⟨5, 6⟩⟩, ⟨5, 6⟩⟩]).covered_ranges,
          r.containsInstant t) ↔
        (∃ g ∈ [(⟨⟨"X", none, some "f1", none, ⟨1, 2⟩⟩, ⟨1, 2⟩⟩ : Pansat.Granule),
       ⟨⟨"X", none, some "f2", none, ⟨2, 3⟩⟩, ⟨2, 3⟩⟩,
       ⟨⟨"X", none, some "f3", none, ⟨5, 6⟩⟩, ⟨5, 6⟩⟩],
          g.range.containsInstant t)) :=
  index_covered_ranges_coverage_law.1 "X"
    [⟨⟨"X", none, some "f1", none, ⟨1, 2⟩⟩, ⟨1, 2⟩⟩,
     ⟨⟨"X", none, some "f2", none, ⟨2, 3⟩⟩, ⟨2, 3⟩⟩,
     ⟨⟨"X", none, some "f3", none, ⟨5, 6⟩⟩, ⟨5, 6⟩⟩]
    (by decide) (by decide)

/-- C6: for all well-formed TimeRanges `A` and `B`, `A.merge(B)` succeeds
exactly when `A.overlaps(B)` or `A` and `B` are adjacent, and raises
`IncompatibleRangeError` exactly when the ranges are disjoint. -/
theorem timeRange_merge_succeeds_iff_overlaps_or_adjacent
    (a b : Pansat.TimeRange) (ha : a.wf) (hb : b.wf) :
    ((∃ c, a.merge b = .ok c) ↔ (a.overlaps b ∨ a.adjacent b)) ∧
    (a.merge b = .error .incompatibleRange ↔
      ¬ (a.overlaps b ∨ a.adjacent b)) := by
  unfold Pansat.TimeRange.merge
  rw [← Pansat.mergeable_iff a b ha hb]
  by_cases h : a.start ≤ b.stop ∧ b.start ≤ a.stop
  · simp [h]
  · simp [h]

/-- Witness for C6 at the concrete ranges `[0,2)` and `[2,5)`. -/
theorem timeRange_merge_succeeds_iff_overlaps_or_adjacent_witness :
    ((∃ c, Pansat.TimeRange.merge ⟨0, 2⟩ ⟨2, 5⟩ = .ok c) ↔
      (Pansat.TimeRange.overlaps ⟨0, 2⟩ ⟨2, 5⟩ ∨
        Pansat.TimeRange.adjacent ⟨0, 2⟩ ⟨2, 5⟩)) ∧
    (Pansat.TimeRange.merge ⟨0, 2⟩ ⟨2, 5⟩ = .error .incompatibleRange ↔
      ¬ (Pansat.TimeRange.overlaps ⟨0, 2⟩ ⟨2, 5⟩ ∨
        Pansat.TimeRange.adjacent ⟨0, 2⟩ ⟨2, 5⟩)) :=
  timeRange_merge_succeeds_iff_overlaps_or_adjacent ⟨0, 2⟩ ⟨2, 5⟩
    (by decide) (by decide)

/-- C7: for all TimeRanges `A` and `B`, `intersect(A, B)` returns none
exactly when `A` and `B` do not overlap (where touching at a single instant
counts as overlapping only if both ranges are zero-length and equal), and
otherwise returns the common sub-range: the range containing exactly the
instants contained in both. -/
theorem timeRange_intersect_none_iff_not_overlaps
    (a b : Pansat.TimeRange) :
    (a.intersect b = none ↔ ¬ a.overlaps b) ∧
    (∀ c, a.intersect b = some c →
      ∀ t, c.containsInstant t ↔
        (a.containsInstant t ∧ b.containsInstant t)) := by
  constructor
  · unfold Pansat.TimeRange.intersect Pansat.TimeRange.overlaps
    by_cases h : (a.start < b.stop ∧ b.start < a.stop) ∨
        (a.start = a.stop ∧ b.start = b.stop ∧ a.start = b.start)
    · simp [h]
    · simp [h]
  · intro c hc t
    unfold Pansat.TimeRange.intersect at hc
    by_cases h : (a.start < b.stop ∧ b.start < a.stop) ∨
        (a.start = a.stop ∧ b.start = b.stop ∧ a.start = b.start)
    · rw [if_pos h] at hc
      cases hc
      unfold Pansat.TimeRange.containsInstant
      simp only [max_le_iff, lt_min_iff]
      omega
    · rw [if_neg h] at hc
      cases hc

namespace Pansat

/-- Filtering with a predicate that rejects the inserted element commutes
ordered insertion away. -/
theorem filter_orderedInsert_false (p : Granule → Bool) (g : Granule)
    (hg : p g = false) (l : List Granule) :
    ((l.orderedInsert granuleLE g).filter p) = l.filter p := by
  induction l with
  | nil => simp [hg]
  | cons b t ih =>
    by_cases hle : granuleLE g b
    · simp [List.orderedInsert, hle, List.filter_cons, hg]
    · simp only [List.orderedInsert, if_neg hle, List.filter_cons, ih]

/-- Filtering with a predicate satisfied only by the inserted element
extracts exactly that element. -/
theorem filter_orderedInsert_true (q : Granule → Bool) (g : Granule)
    (hg : q g = true) (l : List Granule) (hl : ∀ x ∈ l, q x = false) :
    ((l.orderedInsert granuleLE g).filter q) = [g] := by
  induction l with
  | nil => simp [hg]
  | cons b t ih =>
    have hb : q b = false := hl b (List.mem_cons_self b t)
    have ht : t.filter q = [] :=
      List.filter_eq_nil_iff.mpr
        (fun x hx => by simp [hl x (List.mem_cons_of_mem _ hx)])
    by_cases hle : granuleLE g b
    · simp [List.orderedInsert, hle, List.filter_cons, hg, hb, ht]
    · simp only [List.orderedInsert, if_neg hle, List.filter_cons, hb,
        Bool.false_eq_true, if_false]
      exact ih (fun x hx => hl x (List.mem_cons_of_mem _ hx))

/-- Re-inserting the same granule leaves the index unchanged. -/
theorem insert_insert_eq (idx : Index) (g : Granule) :
    (idx.insert g).insert g = idx.insert g := by
  have hpg : (fun h : Granule => ! (decide (h.fileKey = g.fileKey))) g = false := by
    simp
  simp only [Index.insert]
  rw [filter_orderedInsert_false _ g hpg, List.filter_filter]
  simp

end Pansat

/-- C8: Index.insert is an idempotent upsert: after inserting `g`, the
index holds exactly one granule with `g`'s (product, local path) file key,
namely `g` itself; and inserting the same granule twice leaves
`find_overlapping` unchanged for every query range. -/
theorem index_insert_upsert_idempotent :
    (∀ (idx : Pansat.Index) (g : Pansat.Granule),
      ((idx.insert g).granules.filter
        (fun h => decide (h.fileKey = g.fileKey))) = [g]) ∧
    (∀ (idx : Pansat.Index) (g : Pansat.Granule) (query : Pansat.TimeRange),
      ((idx.insert g).insert g).find_overlapping query =
        (idx.insert g).find_overlapping query) := by
  constructor
  · intro idx g
    simp only [Pansat.Index.insert]
    refine Pansat.filter_orderedInsert_true _ g (by simp) _ ?_
    intro x hx
    have := (List.mem_filter.mp hx).2
    simpa using this
  · intro idx g query
    rw [Pansat.insert_insert_eq]

namespace Pansat

/-- Modelled from the spec: the credential store of
`pansat.download.accounts` (module missing from the snapshot): a list of
entries mapping a provider name to the stored (user, secret) pair.
`add_identity` stores an account for a provider, overwriting any existing
entry for that provider; `get_identity` looks the account up. -/
def add_identity (ids : List (String × String × String))
    (provider user secret : String) : List (String × String × String) :=
  (provider, user, secret) :: ids.filter (fun e => ! (e.1 == provider))

/-- Modelled from the spec: `get_identity(provider_name) -> (user, secret)`
from the credential store. -/
def get_identity (ids : List (String × String × String))
    (provider : String) : Option (String × String) :=
  ids.lookup provider

/-- Modelled from the spec: the destination file system of a download, as a
mapping from final path to the content hash stored there. -/
def contentId (rec : FileRecord) : String :=
  rec.hash.getD (rec.remote.getD rec.product)

/-- The deterministic final path of a record at a destination. -/
def finalPath (rec : FileRecord) (dest : String) : String :=
  dest ++ "/" ++ rec.remote.getD rec.product

/-- Modelled from the spec: `DataProvider.download(record, destination)`
(module `pansat/download/providers/data_provider.py` is missing from the
snapshot).  If a file with the record's content identity already exists at
the final path it is not re-fetched; otherwise the bytes are fetched and
atomically placed at the final path.  Returns the updated file system and
whether a network fetch happened. -/
def download (fs : List (String × String)) (rec : FileRecord)
    (dest : String) : List (String × String) × Bool :=
  if fs.lookup (finalPath rec dest) = some (contentId rec)
  then (fs, false)
  else ((finalPath rec dest, contentId rec) ::
    fs.filter (fun e => ! (e.1 == finalPath rec dest)), true)

/-- After any download, the final path holds the record's content. -/
theorem download_lookup (fs : List (String × String)) (rec : FileRecord)
    (dest : String) :
    ((download fs rec dest).1).lookup (finalPath rec dest)
      = some (contentId rec) := by
  unfold download
  by_cases h : fs.lookup (finalPath rec dest) = some (contentId rec)
  · simp [h]
  · simp [h, List.lookup]

/-- A download whose content is already in place does nothing. -/
theorem download_of_present (fs : List (String × String)) (rec : FileRecord)
    (dest : String)
    (h : fs.lookup (finalPath rec dest) = some (contentId rec)) :
    download fs rec dest = (fs, false) := by
  unfold download
  simp [h]

end Pansat

/-- C10: `add_identity` for a provider overwrites any existing entry
rather than failing or keeping both: afterwards the store holds exactly one
entry for the provider and `get_identity` returns the most recently stored
(user, secret) pair, also when an account was already stored. -/
theorem add_identity_overwrites :
    ∀ (ids : List (String × String × String)) (provider user secret : String),
      Pansat.get_identity (Pansat.add_identity ids provider user secret)
        provider = some (user, secret) ∧
      ((Pansat.add_identity ids provider user secret).filter
        (fun e => e.1 == provider)).length = 1 ∧
      ∀ u s : String,
        Pansat.get_identity
          (Pansat.add_identity (Pansat.add_identity ids provider u s)
            provider user secret) provider = some (user, secret) := by
  intro ids provider user secret
  refine ⟨?_, ?_, fun u s => ?_⟩
  · simp [Pansat.get_identity, Pansat.add_identity, List.lookup]
  · simp [Pansat.add_identity, List.filter_cons, List.filter_filter]
  · simp [Pansat.get_identity, Pansat.add_identity, List.lookup]

/-- C3: download is idempotent by content identity.  A second download of
the same record performs no network fetch and leaves the file system - in
particular the final file - unchanged; and whenever a file with the
record's content identity already exists at the destination, download does
not fetch at all. -/
theorem download_idempotent :
    (∀ (fs : List (String × String)) (rec : Pansat.FileRecord)
        (dest : String),
      (Pansat.download (Pansat.download fs rec dest).1 rec dest).1
        = (Pansat.download fs rec dest).1 ∧
      (Pansat.download (Pansat.download fs rec dest).1 rec dest).2 = false ∧
      ((Pansat.download fs rec dest).1).lookup (Pansat.finalPath rec dest)
        = some (Pansat.contentId rec)) ∧
    (∀ (fs : List (String × String)) (rec : Pansat.FileRecord)
        (dest : String),
      fs.lookup (Pansat.finalPath rec dest) = some (Pansat.contentId rec) →
      Pansat.download fs rec dest = (fs, false)) := by
  constructor
  · intro fs rec dest
    have h1 := Pansat.download_lookup fs rec dest
    have h2 := Pansat.download_of_present _ rec dest h1
    exact ⟨by rw [h2], by rw [h2], h1⟩
  · intro fs rec dest h
    exact Pansat.download_of_present fs rec dest h

/-- Witness for C3 at a concrete file system where the file is already in
place: no fetch happens. -/
theorem download_idempotent_witness :
    [("d/f", "h")].lookup
      (Pansat.finalPath ⟨"p", some "f", none, some "h", ⟨0, 1⟩⟩ "d")
      = some (Pansat.contentId ⟨"p", some "f", none, some "h", ⟨0, 1⟩⟩) ∧
    Pansat.download [("d/f", "h")]
      ⟨"p", some "f", none, some "h", ⟨0, 1⟩⟩ "d" = ([("d/f", "h")], false) :=
  ⟨by decide, download_idempotent.2 [("d/f", "h")]
    ⟨"p", some "f", none, some "h", ⟨0, 1⟩⟩ "d" (by decide)⟩

namespace Pansat

/-- Modelled from the spec: `DataProvider` (module
`pansat/download/providers/data_provider.py` is missing from the
snapshot).  One remote archive: its name, the product names it provides
(`get_available_products`), and its `find_files` search keyed by product
and time range. -/
structure Provider where
  name : String
  provides : List String
  found : String → TimeRange → List FileRecord

/-- Modelled from the spec: the failure kinds of product resolution.
`noProvider` is the spec's `NoProviderError` (`ConfigurationError` in the
error taxonomy); `noData` is `NoDataError`. -/
inductive ResolutionError where
  | noProvider
  | noData
deriving DecidableEq, Repr

/-- Deduplication of file records by remote locator, keeping the first
occurrence; `seen` collects locators already emitted. -/
def dedupGo (seen : List (Option String)) : List FileRecord → List FileRecord
  | [] => []
  | f :: rest =>
    if f.remote ∈ seen then dedupGo seen rest
    else f :: dedupGo (f.remote :: seen) rest

/-- Modelled from the spec: merged results are deduplicated by remote
locator so a file mirrored by two archives appears only once. -/
def dedupByRemote (l : List FileRecord) : List FileRecord := dedupGo [] l

/-- Modelled from the spec: product resolution.  The candidates are all
registered providers claiming the product; `find_files` runs on every
candidate and the merged results are deduplicated by remote locator.  Zero
candidates fail with `noProvider`; candidates that all return empty results
fail with `noData`. -/
def resolve (registry : List Provider) (product : String) (r : TimeRange) :
    Except ResolutionError (List FileRecord) :=
  let candidates := registry.filter (fun p => decide (product ∈ p.provides))
  if candidates.isEmpty then .error .noProvider
  else
    let files := dedupByRemote (candidates.flatMap (fun p => p.found product r))
    if files.isEmpty then .error .noData else .ok files

/-- Every record emitted by the deduplication comes from the input. -/
theorem dedupGo_subset (l : List FileRecord) :
    ∀ seen, ∀ f ∈ dedupGo seen l, f ∈ l := by
  induction l with
  | nil => intro seen f hf; simp [dedupGo] at hf
  | cons g rest ih =>
    intro seen f hf
    by_cases hm : g.remote ∈ seen
    · simp only [dedupGo, if_pos hm] at hf
      exact List.mem_cons_of_mem _ (ih seen f hf)
    · simp only [dedupGo, if_neg hm] at hf
      rcases List.mem_cons.mp hf with h | h
      · exact h ▸ List.mem_cons_self g rest
      · exact List.mem_cons_of_mem _ (ih _ f h)

/-- The deduplication emits no locator in `seen` and no locator twice. -/
theorem dedupGo_pairwise (l : List FileRecord) :
    ∀ seen,
    (∀ f ∈ dedupGo seen l, f.remote ∉ seen) ∧
    (dedupGo seen l).Pairwise (fun a b => a.remote ≠ b.remote) := by
  induction l with
  | nil => intro seen; simp [dedupGo]
  | cons g rest ih =>
    intro seen
    by_cases hm : g.remote ∈ seen
    · simpa only [dedupGo, if_pos hm] using ih seen
    · simp only [dedupGo, if_neg hm]
      have ih' := ih (g.remote :: seen)
      constructor
      · intro f hf
        rcases List.mem_cons.mp hf with h | h
        · exact h ▸ hm
        · intro hs
          exact ih'.1 f h (List.mem_cons_of_mem _ hs)
      · refine List.Pairwise.cons ?_ ih'.2
        intro f hf heq
        exact ih'.1 f hf (heq ▸ List.mem_cons_self g.remote seen)

/-- Every input locator not already seen is represented in the output. -/
theorem dedupGo_complete (l : List FileRecord) :
    ∀ seen, ∀ f ∈ l, f.remote ∉ seen →
    ∃ g ∈ dedupGo seen l, g.remote = f.remote := by
  induction l with
  | nil => intro seen f hf; simp at hf
  | cons g rest ih =>
    intro seen f hf hns
    by_cases hm : g.remote ∈ seen
    · simp only [dedupGo, if_pos hm]
      rcases List.mem_cons.mp hf with h | h
      · exact absurd (h ▸ hns) (fun hn => hn hm)
      · exact ih seen f h hns
    · simp only [dedupGo, if_neg hm]
      rcases List.mem_cons.mp hf with h | h
      · exact ⟨g, List.mem_cons_self _ _, (h ▸ rfl)⟩
      · by_cases he : f.remote = g.remote
        · exact ⟨g, List.mem_cons_self _ _, he.symm⟩
        · obtain ⟨x, hx, hxe⟩ := ih (g.remote :: seen) f h
            (by
              intro hc
              rcases List.mem_cons.mp hc with hc | hc
              · exact he hc
              · exact hns hc)
          exact ⟨x, List.mem_cons_of_mem _ hx, hxe⟩

/-- The deduplication is empty exactly on empty input. -/
theorem dedupByRemote_eq_nil_iff (l : List FileRecord) :
    dedupByRemote l = [] ↔ l = [] := by
  cases l with
  | nil => simp [dedupByRemote, dedupGo]
  | cons g rest => simp [dedupByRemote, dedupGo]

end Pansat

/-- C5: resolution fails with `noProvider` (the taxonomy's
`ConfigurationError`) exactly when zero registered providers claim the
product, and with `noData` exactly when some provider claims the product
but every claiming provider returns an empty result; the two failure kinds
are distinct constructors and never coincide. -/
theorem resolution_error_taxonomy :
    ∀ (registry : List Pansat.Provider) (product : String)
      (r : Pansat.TimeRange),
      (Pansat.resolve registry product r
          = .error Pansat.ResolutionError.noProvider ↔
        ¬ ∃ p ∈ registry, product ∈ p.provides) ∧
      (Pansat.resolve registry product r
          = .error Pansat.ResolutionError.noData ↔
        ((∃ p ∈ registry, product ∈ p.provides) ∧
          ∀ p ∈ registry, product ∈ p.provides →
            p.found product r = [])) := by
  intro registry product r
  unfold Pansat.resolve
  by_cases hc : (registry.filter (fun p => decide (product ∈ p.provides))).isEmpty
  · have hnone : ¬ ∃ p ∈ registry, product ∈ p.provides := by
      rw [List.isEmpty_iff] at hc
      rintro ⟨p, hp, hmem⟩
      have hpf : p ∈ registry.filter (fun p => decide (product ∈ p.provides)) :=
        List.mem_filter.mpr ⟨hp, by simpa using hmem⟩
      rw [hc] at hpf
      cases hpf
    rw [if_pos hc]
    constructor
    · simp [hnone]
    · simp [hnone]
  · have hex : ∃ p ∈ registry, product ∈ p.provides := by
      rw [List.isEmpty_iff] at hc
      obtain ⟨p, hp⟩ := List.exists_mem_of_ne_nil _ hc
      have hm := List.mem_filter.mp hp
      exact ⟨p, hm.1, by simpa using hm.2⟩
    rw [if_neg hc]
    by_cases hf : (Pansat.dedupByRemote
        ((registry.filter (fun p => decide (product ∈ p.provides))).flatMap
          (fun p => p.found product r))).isEmpty
    · have hflat := hf
      rw [List.isEmpty_iff, Pansat.dedupByRemote_eq_nil_iff,
        List.flatMap_eq_nil_iff] at hflat
      have hempty : ∀ p ∈ registry, product ∈ p.provides →
          p.found product r = [] := by
        intro p hp hmem
        exact hflat p (List.mem_filter.mpr ⟨hp, by simpa using hmem⟩)
      rw [if_pos hf]
      constructor
      · simp [hex]
      · exact iff_of_true rfl ⟨hex, hempty⟩
    · have hflat := hf
      rw [List.isEmpty_iff, Pansat.dedupByRemote_eq_nil_iff,
        List.flatMap_eq_nil_iff] at hflat
      have hne : ¬ ∀ p ∈ registry, product ∈ p.provides →
          p.found product r = [] := by
        intro hall
        refine hflat (fun p hp => ?_)
        have hm := List.mem_filter.mp hp
        exact hall p hm.1 (by simpa using hm.2)
      rw [if_neg hf]
      constructor
      · simp [hex]
      · simp [hne]

/-- C2: a successful resolution merges `find_files` results from every
registered provider that claims the product, deduplicated by remote
locator: every resolved record was found by some claiming provider, every
record found by any claiming provider is represented by exactly one
resolved record with its remote locator, and no two resolved records share
a remote locator. -/
theorem resolve_merges_and_dedups :
    ∀ (registry : List Pansat.Provider) (product : String)
      (r : Pansat.TimeRange) (files : List Pansat.FileRecord),
      Pansat.resolve registry product r = .ok files →
      (∀ f ∈ files, ∃ p ∈ registry,
        product ∈ p.provides ∧ f ∈ p.found product r) ∧
      (∀ p ∈ registry, product ∈ p.provides →
        ∀ f ∈ p.found product r, ∃ g ∈ files, g.remote = f.remote) ∧
      files.Pairwise (fun a b => a.remote ≠ b.remote) := by
  intro registry product r files h
  unfold Pansat.resolve at h
  by_cases hc : (registry.filter (fun p => decide (product ∈ p.provides))).isEmpty
  · rw [if_pos hc] at h
    cases h
  · rw [if_neg hc] at h
    by_cases hf : (Pansat.dedupByRemote
        ((registry.filter (fun p => decide (product ∈ p.provides))).flatMap
          (fun p => p.found product r))).isEmpty
    · rw [if_pos hf] at h
      cases h
    · rw [if_neg hf] at h
      have hfiles : files = Pansat.dedupByRemote
          ((registry.filter (fun p => decide (product ∈ p.provides))).flatMap
            (fun p => p.found product r)) := by
        cases h
        rfl
      subst hfiles
      refine ⟨?_, ?_, (Pansat.dedupGo_pairwise _ []).2⟩
      · intro f hfm
        have hin := Pansat.dedupGo_subset _ [] f hfm
        obtain ⟨p, hp, hfp⟩ := List.mem_flatMap.mp hin
        have hm := List.mem_filter.mp hp
        exact ⟨p, hm.1, by simpa using hm.2, hfp⟩
      · intro p hp hmem f hfp
        have hflat : f ∈ (registry.filter
            (fun p => decide (product ∈ p.provides))).flatMap
              (fun p => p.found product r) :=
          List.mem_flatMap.mpr
            ⟨p, List.mem_filter.mpr ⟨hp, by simpa using hmem⟩, hfp⟩
        exact Pansat.dedupGo_complete _ [] f hflat (by simp)

/-- Witness for C2: two archives mirroring the same remote file; the
resolved list holds the record exactly once. -/
theorem resolve_merges_and_dedups_witness :
    (∀ f ∈ [(⟨"prod", some "a/f1", none, none, ⟨0, 10⟩⟩ : Pansat.FileRecord)],
      ∃ p ∈ [(⟨"arch1", ["prod"],
          fun _ _ => [⟨"prod", some "a/f1", none, none, ⟨0, 10⟩⟩]⟩ :
            Pansat.Provider),
          ⟨"arch2", ["prod"],
            fun _ _ => [⟨"prod", some "a/f1", none, none, ⟨0, 10⟩⟩]⟩],
        "prod" ∈ p.provides ∧ f ∈ p.found "prod" ⟨0, 10⟩) ∧
    (∀ p ∈ [(⟨"arch1", ["prod"],
          fun _ _ => [⟨"prod", some "a/f1", none, none, ⟨0, 10⟩⟩]⟩ :
            Pansat.Provider),
          ⟨"arch2", ["prod"],
            fun _ _ => [⟨"prod", some "a/f1", none, none, ⟨0, 10⟩⟩]⟩],
      "prod" ∈ p.provides →
      ∀ f ∈ p.found "prod" ⟨0, 10⟩,
        ∃ g ∈ [(⟨"prod", some "a/f1", none, none, ⟨0, 10⟩⟩ :
            Pansat.FileRecord)], g.remote = f.remote) ∧
    ([(⟨"prod", some "a/f1", none, none, ⟨0, 10⟩⟩ :
        Pansat.FileRecord)]).Pairwise (fun a b => a.remote ≠ b.remote) :=
  resolve_merges_and_dedups
    [⟨"arch1", ["prod"], fun _ _ => [⟨"prod", some "a/f1", none, none, ⟨0, 10⟩⟩]⟩,
     ⟨"arch2", ["prod"], fun _ _ => [⟨"prod", some "a/f1", none, none, ⟨0, 10⟩⟩]⟩]
    "prod" ⟨0, 10⟩
    [⟨"prod", some "a/f1", none, none, ⟨0, 10⟩⟩] rfl

namespace Pansat

/-- Modelled from the spec: `pansat.catalog.Catalog` (module
`pansat/catalog/__init__.py` is missing from the snapshot).  A collection
of indexed granules across products; the per-product index view is derived
by filtering on the product name. -/
structure Catalog where
  granules : List Granule
deriving DecidableEq, Repr

/-- The granules a catalog holds for one product. -/
def Catalog.productGranules (c : Catalog) (product : String) : List Granule :=
  c.granules.filter (fun g => g.record.product == product)

/-- Modelled from the spec: one record of the persisted listing format:
product name, local path, time range bounds and optional hash. -/
structure ListingEntry where
  product : String
  localPath : String
  start : Int
  stop : Int
  hash : Option String
deriving DecidableEq, Repr

/-- Serialize one granule to a listing entry. -/
def toEntry (g : Granule) : ListingEntry :=
  ⟨g.record.product, (g.record.localPath).getD "", g.range.start,
    g.range.stop, g.record.hash⟩

/-- Rebuild a granule from a listing entry. -/
def ofEntry (e : ListingEntry) : Granule :=
  ⟨⟨e.product, none, some e.localPath, e.hash, ⟨e.start, e.stop⟩⟩,
    ⟨e.start, e.stop⟩⟩

/-- Modelled from the spec: catalog persistence, one record per granule. -/
def Catalog.save (c : Catalog) : List ListingEntry := c.granules.map toEntry

/-- Modelled from the spec: loading a persisted listing. -/
def Catalog.load (entries : List ListingEntry) : Catalog :=
  ⟨entries.map ofEntry⟩

/-- The persisted identity of a granule: product name, local path, time
range bounds and optional hash. -/
def granuleData (g : Granule) :
    String × Option String × Int × Int × Option String :=
  (g.record.product, g.record.localPath, g.range.start, g.range.stop,
    g.record.hash)

end Pansat

/-- C9: saving a catalog to the persisted listing and loading it back
yields an equal catalog: for every product the same sequence of granule
data (product name, local path, time range bounds, optional hash), provided
every catalogued granule has a local path; and loading is independent of
record ordering up to permutation of the granules. -/
theorem catalog_save_load_roundtrip :
    (∀ c : Pansat.Catalog,
      (∀ g ∈ c.granules, ∃ p, g.record.localPath = some p) →
      ∀ product : String,
        ((Pansat.Catalog.load (Pansat.Catalog.save c)).productGranules
          product).map Pansat.granuleData
        = (c.productGranules product).map Pansat.granuleData) ∧
    (∀ entries₁ entries₂ : List Pansat.ListingEntry,
      entries₁.Perm entries₂ →
      ((Pansat.Catalog.load entries₁).granules).Perm
        ((Pansat.Catalog.load entries₂).granules)) := by
  constructor
  · intro c hpath product
    unfold Pansat.Catalog.load Pansat.Catalog.save
      Pansat.Catalog.productGranules
    rw [List.map_map, List.filter_map, List.map_map]
    rw [show List.filter ((fun g => g.record.product == product) ∘
        (Pansat.ofEntry ∘ Pansat.toEntry)) c.granules
        = List.filter (fun g => g.record.product == product) c.granules from
      List.filter_congr (fun x _ => rfl)]
    refine List.map_congr_left ?_
    intro g hg
    obtain ⟨p, hp⟩ := hpath g (List.mem_filter.mp hg).1
    unfold Pansat.granuleData Pansat.ofEntry Pansat.toEntry
    simp [hp]
  · intro e₁ e₂ hperm
    exact hperm.map Pansat.ofEntry

/-- Witness for C9: a one-granule catalog round-trips. -/
theorem catalog_save_load_roundtrip_witness :
    ∀ product : String,
      ((Pansat.Catalog.load (Pansat.Catalog.save
        ⟨[⟨⟨"P", some "r", some "d/p", some "h", ⟨0, 5⟩⟩,
          ⟨1, 4⟩⟩]⟩)).productGranules product).map Pansat.granuleData
      = ((⟨[⟨⟨"P", some "r", some "d/p", some "h", ⟨0, 5⟩⟩, ⟨1, 4⟩⟩]⟩ :
          Pansat.Catalog).productGranules product).map Pansat.granuleData :=
  catalog_save_load_roundtrip.1
    ⟨[⟨⟨"P", some "r", some "d/p", some "h", ⟨0, 5⟩⟩, ⟨1, 4⟩⟩]⟩
    (by
      intro g hg
      rcases List.mem_singleton.mp hg with rfl
      exact ⟨"d/p", rfl⟩)

namespace Pansat

/-- Twice the center instant of a range (doubling avoids division). -/
def center2 (r : TimeRange) : Int := r.start + r.stop

/-- Twice the distance between the time centers of two ranges. -/
def centerDist2 (a b : TimeRange) : Nat := (center2 a - center2 b).natAbs

/-- The temporal gap between two ranges: the distance between the facing
bounds when one lies beyond the other, zero otherwise. -/
def timeGap (a b : TimeRange) : Int :=
  if a.stop ≤ b.start then b.start - a.stop
  else if b.stop ≤ a.start then a.start - b.stop
  else 0

/-- Modelled from the spec: a candidate range qualifies for collocation
when it genuinely overlaps or its gap is at most `maxTimeDiff`. -/
def qualifies (a b : TimeRange) (maxTimeDiff : Int) : Prop :=
  a.overlaps b ∨ timeGap a b ≤ maxTimeDiff

instance (a b : TimeRange) (d : Int) : Decidable (qualifies a b d) :=
  inferInstanceAs (Decidable (a.overlaps b ∨ timeGap a b ≤ d))

/-- Strict preference between candidate granules for a given range:
smaller time-center distance first, ties broken by earlier start. -/
def better (a : TimeRange) (c b : Granule) : Prop :=
  centerDist2 a c.range < centerDist2 a b.range ∨
  (centerDist2 a c.range = centerDist2 a b.range ∧
    c.range.start < b.range.start)

instance (a : TimeRange) (c b : Granule) : Decidable (better a c b) :=
  inferInstanceAs (Decidable (centerDist2 a c.range < centerDist2 a b.range ∨
    (centerDist2 a c.range = centerDist2 a b.range ∧
      c.range.start < b.range.start)))

/-- Keep the preferred of a new candidate and the best seen so far. -/
def pickBetter (a : TimeRange) (c : Granule) : Option Granule → Option Granule
  | none => some c
  | some b => if better a c b then some c else some b

/-- Pick the preferred candidate from a list. -/
def chooseBest (a : TimeRange) : List Granule → Option Granule
  | [] => none
  | c :: rest => pickBetter a c (chooseBest a rest)

/-- Modelled from the spec: `Catalog.match(product_a, product_b,
time_range, max_time_diff)`.  For every granule of product A overlapping
the query range, find the qualifying granule of product B preferred by
smallest time-center distance, ties broken by earliest start, and emit the
pair. -/
def Catalog.«match» (c : Catalog) (pa pb : String) (query : TimeRange)
    (maxTimeDiff : Int) : List (Granule × Granule) :=
  ((c.productGranules pa).filter
    (fun g => decide (g.range.overlaps query))).filterMap
    (fun a =>
      (chooseBest a.range ((c.productGranules pb).filter
        (fun b => decide (qualifies a.range b.range maxTimeDiff)))).map
        (fun b => (a, b)))

/-- The preference order is irreflexive. -/
theorem better_irrefl (a : TimeRange) (b : Granule) : ¬ better a b b := by
  unfold better
  omega

/-- The preference order is transitive. -/
theorem better_trans (a : TimeRange) (x y z : Granule)
    (h1 : better a x y) (h2 : better a y z) : better a x z := by
  unfold better at h1 h2 ⊢
  omega

/-- `chooseBest` returns none exactly on the empty candidate list. -/
theorem chooseBest_eq_none_iff (a : TimeRange) (l : List Granule) :
    chooseBest a l = none ↔ l = [] := by
  cases l with
  | nil => simp [chooseBest]
  | cons c rest =>
    simp only [chooseBest]
    cases chooseBest a rest with
    | none => simp [pickBetter]
    | some b =>
      by_cases h : better a c b <;> simp [pickBetter, h]

/-- `chooseBest` returns a member of the candidate list. -/
theorem chooseBest_mem (a : TimeRange) (l : List Granule) :
    ∀ b : Granule, chooseBest a l = some b → b ∈ l := by
  induction l with
  | nil => intro b h; cases h
  | cons c rest ih =>
    intro b h
    unfold chooseBest at h
    cases hr : chooseBest a rest with
    | none =>
      rw [hr] at h
      simp only [pickBetter, Option.some.injEq] at h
      rw [← h]
      exact List.mem_cons_self c rest
    | some b' =>
      rw [hr] at h
      by_cases hb : better a c b'
      · simp only [pickBetter, if_pos hb, Option.some.injEq] at h
        rw [← h]
        exact List.mem_cons_self c rest
      · simp only [pickBetter, if_neg hb, Option.some.injEq] at h
        rw [← h]
        exact List.mem_cons_of_mem _ (ih b' hr)

/-- No candidate is strictly preferred over the chosen one. -/
theorem chooseBest_min (a : TimeRange) (l : List Granule) :
    ∀ b : Granule, chooseBest a l = some b → ∀ x ∈ l, ¬ better a x b := by
  induction l with
  | nil => intro b h; cases h
  | cons c rest ih =>
    intro b h
    unfold chooseBest at h
    cases hr : chooseBest a rest with
    | none =>
      rw [hr] at h
      simp only [pickBetter, Option.some.injEq] at h
      rw [← h]
      have hrest : rest = [] := (chooseBest_eq_none_iff a rest).mp hr
      subst hrest
      intro x hx
      rcases List.mem_cons.mp hx with rfl | hx
      · exact better_irrefl a _
      · cases hx
    | some b' =>
      rw [hr] at h
      by_cases hb : better a c b'
      · simp only [pickBetter, if_pos hb, Option.some.injEq] at h
        rw [← h]
        intro x hx
        rcases List.mem_cons.mp hx with rfl | hx
        · exact better_irrefl a _
        · intro hxc
          exact ih b' hr x hx (better_trans a x c b' hxc hb)
      · simp only [pickBetter, if_neg hb, Option.some.injEq] at h
        rw [← h]
        intro x hx
        rcases List.mem_cons.mp hx with rfl | hx
        · exact hb
        · exact ih b' hr x hx

end Pansat

/-- C4: `Catalog.match(A, B, time_range, max_time_diff)` pairs each granule
of product A that overlaps the query range with a granule of product B that
qualifies (range overlapping, or within a gap of at most `max_time_diff`),
preferring the smallest time-center distance and breaking ties by earliest
start; every A granule with at least one qualifying candidate is paired.
Scenario (minutes after midnight): A at 10:00-10:05, B at 10:04-10:09 and
11:30-11:35, `max_time_diff` one hour: exactly the first B granule is
returned, paired with A's granule. -/
theorem catalog_match_collocation :
    (∀ (c : Pansat.Catalog) (pa pb : String) (query : Pansat.TimeRange)
        (d : Int),
      (∀ ab ∈ c.«match» pa pb query d,
        ab.1 ∈ c.productGranules pa ∧ ab.1.range.overlaps query ∧
        ab.2 ∈ c.productGranules pb ∧
        Pansat.qualifies ab.1.range ab.2.range d ∧
        ∀ b ∈ c.productGranules pb, Pansat.qualifies ab.1.range b.range d →
          ¬ Pansat.better ab.1.range b ab.2) ∧
      (∀ a ∈ c.productGranules pa, a.range.overlaps query →
        (∃ b ∈ c.productGranules pb, Pansat.qualifies a.range b.range d) →
        ∃ b, (a, b) ∈ c.«match» pa pb query d)) ∧
    (Pansat.Catalog.«match»
      ⟨[⟨⟨"A", none, some "a1", none, ⟨600, 605⟩⟩, ⟨600, 605⟩⟩,
        ⟨⟨"B", none, some "b1", none, ⟨604, 609⟩⟩, ⟨604, 609⟩⟩,
        ⟨⟨"B", none, some "b2", none, ⟨690, 695⟩⟩, ⟨690, 695⟩⟩]⟩
      "A" "B" ⟨0, 1440⟩ 60 =
      [(⟨⟨"A", none, some "a1", none, ⟨600, 605⟩⟩, ⟨600, 605⟩⟩,
        ⟨⟨"B", none, some "b1", none, ⟨604, 609⟩⟩, ⟨604, 609⟩⟩)]) := by
  constructor
  · intro c pa pb query d
    constructor
    · intro ab hab
      unfold Pansat.Catalog.«match» at hab
      obtain ⟨a, ha, hmap⟩ := List.mem_filterMap.mp hab
      obtain ⟨b, hb, heq⟩ := Option.map_eq_some'.mp hmap
      cases heq
      have haf := List.mem_filter.mp ha
      have hbmem := Pansat.chooseBest_mem a.range _ b hb
      have hbf := List.mem_filter.mp hbmem
      refine ⟨haf.1, of_decide_eq_true haf.2, hbf.1,
        of_decide_eq_true hbf.2, ?_⟩
      intro b' hb' hq
      exact Pansat.chooseBest_min a.range _ b hb b'
        (List.mem_filter.mpr ⟨hb', decide_eq_true hq⟩)
    · intro a ha hov hex
      obtain ⟨b0, hb0, hq0⟩ := hex
      have hbc : b0 ∈ (c.productGranules pb).filter
          (fun b => decide (Pansat.qualifies a.range b.range d)) :=
        List.mem_filter.mpr ⟨hb0, decide_eq_true hq0⟩
      cases hcb : Pansat.chooseBest a.range
          ((c.productGranules pb).filter
            (fun b => decide (Pansat.qualifies a.range b.range d))) with
      | none =>
        rw [(Pansat.chooseBest_eq_none_iff _ _).mp hcb] at hbc
        cases hbc
      | some b =>
        refine ⟨b, ?_⟩
        unfold Pansat.Catalog.«match»
        refine List.mem_filterMap.mpr
          ⟨a, List.mem_filter.mpr ⟨ha, decide_eq_true hov⟩, ?_⟩
        rw [hcb]
        rfl
  · decide

/-- Witness for C4: in the scenario catalog, the A granule has a qualifying
B partner, so a pair is emitted. -/
theorem catalog_match_collocation_witness :
    ∃ b, ((⟨⟨"A", none, some "a1", none, ⟨600, 605⟩⟩, ⟨600, 605⟩⟩ :
        Pansat.Granule), b) ∈
      Pansat.Catalog.«match»
        ⟨[⟨⟨"A", none, some "a1", none, ⟨600, 605⟩⟩, ⟨600, 605⟩⟩,
          ⟨⟨"B", none, some "b1", none, ⟨604, 609⟩⟩, ⟨604, 609⟩⟩,
          ⟨⟨"B", none, some "b2", none, ⟨690, 695⟩⟩, ⟨690, 695⟩⟩]⟩
        "A" "B" ⟨0, 1440⟩ 60 :=
  (catalog_match_collocation.1
    ⟨[⟨⟨"A", none, some "a1", none, ⟨600, 605⟩⟩, ⟨600, 605⟩⟩,
      ⟨⟨"B", none, some "b1", none, ⟨604, 609⟩⟩, ⟨604, 609⟩⟩,
      ⟨⟨"B", none, some "b2", none, ⟨690, 695⟩⟩, ⟨690, 695⟩⟩]⟩
    "A" "B" ⟨0, 1440⟩ 60).2
    ⟨⟨"A", none, some "a1", none, ⟨600, 605⟩⟩, ⟨600, 605⟩⟩
    (by decide) (by decide)
    ⟨⟨⟨"B", none, some "b1", none, ⟨604, 609⟩⟩, ⟨604, 609⟩⟩,
      by decide, by decide⟩
